import Mathlib

/-!
Verification of the spike-and-slab RBM policy implementation
(`src/mlpack/methods/ann/rbm/spike_slab_rbm_impl.hpp`).

The model state is embedded as a structure holding the dimensions, the
hyperparameters, and the parameter views (weight tensor `W : V × P × H`,
spike bias `b : H`, visible penalty scalar `α`).  Vectors and matrices are
total functions from `ℕ`; every source loop over `hiddenSize`,
`poolSize` or `visibleSize` becomes a `Finset.range` sum or a bounded
quantifier.  Randomness (Bernoulli and Gaussian draws) is injected as
explicit function arguments, mirroring the `RandBernoulli` / `RandNormal`
calls in the source.
-/

/-- Embedding of the spike-slab-relevant state of the RBM object: dimensions,
hyperparameters (`slabPenalty`, `radius`), and the parameter views
(`weight` is `weightCube` with `weight v p h` the element at row `v`,
column `p`, slice `h`; `spikeBias`; the scalar `visiblePenalty`). -/
structure Model where
  visibleSize : ℕ
  hiddenSize : ℕ
  poolSize : ℕ
  slabPenalty : ℝ
  radius : ℝ
  weight : ℕ → ℕ → ℕ → ℝ
  spikeBias : ℕ → ℝ
  visiblePenalty : ℝ

/-- Modelled from the spec: `LogisticFunction::Fn` lives in
`activation_functions/logistic_function.hpp`, which is not part of the
sources; the spec describes it as the pure logistic map into (0,1). -/
noncomputable def logistic (x : ℝ) : ℝ := 1 / (1 + Real.exp (-x))

/-- Modelled from the spec: `SoftplusFunction::Fn` lives in
`activation_functions/softplus_function.hpp`, which is not part of the
sources; the spec describes it as a numerically stable `log(1 + e^x)`. -/
noncomputable def softplus (x : ℝ) : ℝ := Real.log (1 + Real.exp x)

/-- Entry `p` of `weightCube.slice(h).t() * visible`, the building block of
the quadratic forms in `SpikeMean`, `SlabMean` and `FreeEnergy`. -/
noncomputable def wtv (M : Model) (visible : ℕ → ℝ) (p h : ℕ) : ℝ :=
  ∑ v ∈ Finset.range M.visibleSize, M.weight v p h * visible v

/-- The scalar `visible.t() * weightCube.slice(h) * weightCube.slice(h).t()
* visible` computed in `SpikeMean` (lines 240-242), associated left to
right the way Armadillo evaluates the expression. -/
noncomputable def quadForm (M : Model) (visible : ℕ → ℝ) (h : ℕ) : ℝ :=
  ∑ v ∈ Finset.range M.visibleSize,
    (∑ p ∈ Finset.range M.poolSize, wtv M visible p h * M.weight v p h) * visible v

/-- Source `SpikeMean` (lines 234-244): entry `h` of the spike mean vector. -/
noncomputable def spikeMean (M : Model) (visible : ℕ → ℝ) (h : ℕ) : ℝ :=
  logistic (0.5 * (1 / M.slabPenalty) * quadForm M visible h + M.spikeBias h)

/-- Source `SlabMean` (lines 268-278): entry `(p, h)` of the slab mean matrix,
`slabMean.col(h) = (1/slabPenalty) * spike(h) * weightCube.slice(h).t() *
visible`. -/
noncomputable def slabMean (M : Model) (visible spike : ℕ → ℝ) (p h : ℕ) : ℝ :=
  (1 / M.slabPenalty) * spike h * wtv M visible p h

/-- Source `VisibleMean` (lines 189-203): the input is the concatenated hidden
state, spike in positions `0..H`, slab stored column-major in positions
`H + h*P + p`; entry `v` of the output accumulates
`weightCube.slice(h) * slab.col(h) * spike(h)` over `h` and is then scaled
by `1 / visiblePenalty(0)`. -/
noncomputable def visibleMean (M : Model) (input : ℕ → ℝ) (v : ℕ) : ℝ :=
  (1 / M.visiblePenalty) *
    ∑ h ∈ Finset.range M.hiddenSize,
      (∑ p ∈ Finset.range M.poolSize,
        M.weight v p h * input (M.hiddenSize + h * M.poolSize + p)) * input h

/-- Source `HiddenMean` (lines 212-225): the output concatenates the spike mean
(positions `0..H`) with the slab mean conditioned on `spikeSamples`, the
Bernoulli sample drawn from that spike mean (positions `H + h*P + p`,
column-major).  The Bernoulli draw is injected as the argument
`spikeSamples`. -/
noncomputable def hiddenMean (M : Model) (visible spikeSamples : ℕ → ℝ) (j : ℕ) : ℝ :=
  if j < M.hiddenSize then spikeMean M visible j
  else slabMean M visible spikeSamples
    ((j - M.hiddenSize) % M.poolSize) ((j - M.hiddenSize) / M.poolSize)

/-- Source `FreeEnergy` (lines 70-88): `0.5 * visiblePenalty(0) * inputᵀ input`,
minus `0.5 * hiddenSize * poolSize * log(2π / slabPenalty)`, minus for each
hidden unit `softplus(spikeBias(h) - accu(square(inputᵀ W_h)) /
(2 slabPenalty))`. -/
noncomputable def freeEnergy (M : Model) (input : ℕ → ℝ) : ℝ :=
  0.5 * (M.visiblePenalty * ∑ v ∈ Finset.range M.visibleSize, input v * input v)
  - 0.5 * (M.hiddenSize : ℝ) * (M.poolSize : ℝ) *
      Real.log ((2 * Real.pi) / M.slabPenalty)
  - ∑ h ∈ Finset.range M.hiddenSize,
      softplus (M.spikeBias h -
        (∑ p ∈ Finset.range M.poolSize, wtv M input p h * wtv M input p h) /
          (2 * M.slabPenalty))

/-- Source `Phase` (line 115): element `(v, p)` of gradient cube slice `h`,
`weightGrad.slice(h) = input * slabMean.col(h).t() * spikeMean(h)`.
`spikeSamples` is the Bernoulli draw from line 111 that `SlabMean` is
conditioned on; the scale factor is the spike mean itself. -/
noncomputable def phaseWeightGrad (M : Model) (input spikeSamples : ℕ → ℝ)
    (v p h : ℕ) : ℝ :=
  input v * slabMean M input spikeSamples p h * spikeMean M input h

/-- Source `Phase` (line 119): `visiblePenaltyGrad = -0.5 * input.t() * input`. -/
noncomputable def phaseVisiblePenaltyGrad (M : Model) (input : ℕ → ℝ) : ℝ :=
  -0.5 * ∑ v ∈ Finset.range M.visibleSize, input v * input v

/-- Source `Phase` (lines 97-120) acting on the flat gradient buffer.  The weight
cube view sits at offset 0 with Armadillo column-major layout (element
`(v, p, h)` at flat index `h*V*P + p*V + v`, so flat index `j` decodes as
`v = j % V`, `p = j / V % P`, `h = j / (V*P)`), the spike-bias view at
offset `weightGrad.n_elem = V*P*H`, and the one-element visible-penalty
view right after it; every other position of the buffer is left as it
was. -/
noncomputable def phase (M : Model) (input spikeSamples gradient : ℕ → ℝ)
    (j : ℕ) : ℝ :=
  if j < M.visibleSize * M.poolSize * M.hiddenSize then
    phaseWeightGrad M input spikeSamples
      (j % M.visibleSize) (j / M.visibleSize % M.poolSize)
      (j / (M.visibleSize * M.poolSize))
  else if j < M.visibleSize * M.poolSize * M.hiddenSize + M.hiddenSize then
    spikeMean M input (j - M.visibleSize * M.poolSize * M.hiddenSize)
  else if j = M.visibleSize * M.poolSize * M.hiddenSize + M.hiddenSize then
    phaseVisiblePenaltyGrad M input
  else gradient j

/-- Source `Reset` (line 32): the common size of the parameter buffer and of the
three gradient buffers, `(visibleSize * hiddenSize * poolSize) +
visibleSize + hiddenSize`. -/
def resetShape (M : Model) : ℕ :=
  M.visibleSize * M.hiddenSize * M.poolSize + M.visibleSize + M.hiddenSize

/-- Flat indices occupied by the `weightCube` view (offset 0, `V*P*H`
elements, lines 44-46). -/
def weightRegion (M : Model) : Finset ℕ :=
  Finset.Ico 0 (M.visibleSize * M.poolSize * M.hiddenSize)

/-- Flat indices occupied by the `spikeBias` view.  Modelled from the
spec for the offset: lines 48-49 place it at `parameter.memptr() +
weight.n_elem` where the member `weight` is declared in `rbm.hpp`, which
is not among the sources; the spec places the spike-bias view immediately
after the weight tensor, so the offset is `V*P*H`. -/
def spikeBiasRegion (M : Model) : Finset ℕ :=
  Finset.Ico (M.visibleSize * M.poolSize * M.hiddenSize)
    (M.visibleSize * M.poolSize * M.hiddenSize + M.hiddenSize)

/-- Flat index occupied by the one-element `visiblePenalty` view,
immediately after the spike bias (lines 51-52, offset modelled from the
spec as for `spikeBiasRegion`). -/
def visiblePenaltyRegion (M : Model) : Finset ℕ :=
  Finset.Ico (M.visibleSize * M.poolSize * M.hiddenSize + M.hiddenSize)
    (M.visibleSize * M.poolSize * M.hiddenSize + M.hiddenSize + 1)

/-- Observable outcome of `Reset` (lines 30-61): the sizes given to the
four flat buffers, the parameter buffer contents at the instant
`initializeRule.Initialize` is invoked (line 58, after `parameter.zeros()`
on line 54), the final parameter contents, and the `reset` flag. -/
structure ResetState where
  parameterSize : ℕ
  positiveGradientSize : ℕ
  negativeGradientSize : ℕ
  tempNegativeGradientSize : ℕ
  preInitParameter : ℕ → ℝ
  parameter : ℕ → ℝ
  reset : Bool

/-- Source `Reset` (lines 30-61).  The initializer is injected as a buffer
transformer `init`; the buffer it receives is the zeroed parameter
buffer. -/
def Model.Reset (M : Model) (init : (ℕ → ℝ) → ℕ → ℝ) : ResetState :=
  { parameterSize := resetShape M
    positiveGradientSize := resetShape M
    negativeGradientSize := resetShape M
    tempNegativeGradientSize := resetShape M
    preInitParameter := fun _ => 0
    parameter := init (fun _ => 0)
    reset := true }

/-- Source `SampleVisible` (line 156): the hard-coded retry bound. -/
def numMaxTrials : ℕ := 10

/-- L2 norm of the first `n` coordinates, `arma::norm(x, 2)`. -/
noncomputable def norm2 (n : ℕ) (x : ℕ → ℝ) : ℝ :=
  Real.sqrt (∑ i ∈ Finset.range n, x i * x i)

/-- Source `SampleVisible` (lines 164-167): the draw produced on attempt `k`,
coordinate `i`.  The Gaussian source `RandNormal` is injected as `rnd`,
taking the attempt index, the coordinate, and the mean and variance the
source passes it: `visibleMean(i)` (computed once, before the loop, line
159) and `1.0 / visiblePenalty(0)`. -/
noncomputable def svDraw (M : Model) (input : ℕ → ℝ)
    (rnd : ℕ → ℕ → ℝ → ℝ → ℝ) (k i : ℕ) : ℝ :=
  rnd k i (visibleMean M input i) (1 / M.visiblePenalty)

/-- The acceptance test of line 168 applied to the draw of attempt `k`. -/
noncomputable def svAccept (M : Model) (input : ℕ → ℝ)
    (rnd : ℕ → ℕ → ℝ → ℝ → ℝ) (k : ℕ) : Prop :=
  norm2 M.visibleSize (svDraw M input rnd k) < M.radius

open Classical in
/-- The retry loop of lines 162-170, by fuel recursion: starting at
attempt `k` with `fuel` iterations remaining, return the value the loop
counter holds when the loop exits (the index of the accepting attempt on
`break`, or the first index past the budget when the fuel runs out). -/
noncomputable def svLoop (M : Model) (input : ℕ → ℝ)
    (rnd : ℕ → ℕ → ℝ → ℝ → ℝ) : ℕ → ℕ → ℕ
  | 0, k => k
  | fuel + 1, k =>
    if svAccept M input rnd k then k else svLoop M input rnd fuel (k + 1)

/-- The value of `k` after the loop of `SampleVisible` has exited. -/
noncomputable def svExitK (M : Model) (input : ℕ → ℝ)
    (rnd : ℕ → ℕ → ℝ → ℝ → ℝ) : ℕ :=
  svLoop M input rnd numMaxTrials 0

/-- Number of attempts (full inner draws) `SampleVisible` makes. -/
noncomputable def svAttempts (M : Model) (input : ℕ → ℝ)
    (rnd : ℕ → ℕ → ℝ → ℝ → ℝ) : ℕ :=
  min (svExitK M input rnd + 1) numMaxTrials

/-- Number of times the warning of lines 172-178 fires: once when the
loop exits with `k == numMaxTrials`, never otherwise. -/
noncomputable def svWarnCount (M : Model) (input : ℕ → ℝ)
    (rnd : ℕ → ℕ → ℝ → ℝ → ℝ) : ℕ :=
  if svExitK M input rnd = numMaxTrials then 1 else 0

/-- The contents of the output buffer when `SampleVisible` returns: the
draw of the last attempt made (the accepted one, or, when every attempt
was rejected, the final out-of-radius draw, which lines 172-179 leave in
place). -/
noncomputable def svOutput (M : Model) (input : ℕ → ℝ)
    (rnd : ℕ → ℕ → ℝ → ℝ → ℝ) (i : ℕ) : ℝ :=
  svDraw M input rnd (svAttempts M input rnd - 1) i

/-- Spec-side reading of the `SpikeMean` quadratic form, grouped as
`(weightCube.slice(h).t() * visible)` dotted with itself. -/
noncomputable def spikeQuadSpec (M : Model) (visible : ℕ → ℝ) (h : ℕ) : ℝ :=
  ∑ p ∈ Finset.range M.poolSize, wtv M visible p h * wtv M visible p h

/-- Spec-side squared L2 norm of the first `n` coordinates. -/
noncomputable def l2NormSq (n : ℕ) (x : ℕ → ℝ) : ℝ := norm2 n x ^ 2

/-- Scale the slab portion (positions `≥ hiddenSize`) of a concatenated
hidden vector by `c`, holding the spike portion fixed. -/
noncomputable def scaleSlab (M : Model) (c : ℝ) (hidden : ℕ → ℝ) : ℕ → ℝ :=
  fun j => if j < M.hiddenSize then hidden j else c * hidden j

/-- Concrete model with `V = 2`, `H = 1`, `P = 1`. -/
noncomputable def Mex : Model :=
  { visibleSize := 2, hiddenSize := 1, poolSize := 1, slabPenalty := 1,
    radius := 1, weight := fun _ _ _ => 0, spikeBias := fun _ => 0,
    visiblePenalty := 1 }

/-- Concrete model with `V = H = P = 1` and unit weight. -/
noncomputable def Mone : Model :=
  { visibleSize := 1, hiddenSize := 1, poolSize := 1, slabPenalty := 1,
    radius := 1, weight := fun _ _ _ => 1, spikeBias := fun _ => 0,
    visiblePenalty := 1 }

/-- The all-ones vector. -/
noncomputable def oneVec : ℕ → ℝ := fun _ => 1

/-- The all-zeros vector. -/
noncomputable def zeroVec : ℕ → ℝ := fun _ => 0

/-- A degenerate random source that always returns 0. -/
noncomputable def rndZero : ℕ → ℕ → ℝ → ℝ → ℝ := fun _ _ _ _ => 0

/-- The logistic function is strictly positive. -/
lemma logistic_pos (x : ℝ) : 0 < logistic x := by
  unfold logistic
  positivity

/-- The logistic function is strictly below one. -/
lemma logistic_lt_one (x : ℝ) : logistic x < 1 := by
  have hd : 0 < 1 + Real.exp (-x) := by positivity
  rw [logistic, div_lt_one hd]
  linarith [Real.exp_pos (-x)]

/-- Squaring undoes the square root in `norm2`. -/
lemma norm2_sq (n : ℕ) (x : ℕ → ℝ) :
    norm2 n x ^ 2 = ∑ i ∈ Finset.range n, x i * x i := by
  unfold norm2
  exact Real.sq_sqrt (Finset.sum_nonneg fun i _ => mul_self_nonneg (x i))

/-- The left-to-right quadratic form of `SpikeMean` equals the dot product
of `weightCube.slice(h).t() * visible` with itself. -/
lemma quadForm_eq (M : Model) (x : ℕ → ℝ) (h : ℕ) :
    quadForm M x h =
      ∑ p ∈ Finset.range M.poolSize, wtv M x p h * wtv M x p h := by
  unfold quadForm
  calc ∑ v ∈ Finset.range M.visibleSize,
        (∑ p ∈ Finset.range M.poolSize, wtv M x p h * M.weight v p h) * x v
      = ∑ v ∈ Finset.range M.visibleSize, ∑ p ∈ Finset.range M.poolSize,
          wtv M x p h * (M.weight v p h * x v) := by
        refine Finset.sum_congr rfl fun v _ => ?_
        rw [Finset.sum_mul]
        exact Finset.sum_congr rfl fun p _ => by ring
    _ = ∑ p ∈ Finset.range M.poolSize, ∑ v ∈ Finset.range M.visibleSize,
          wtv M x p h * (M.weight v p h * x v) := Finset.sum_comm
    _ = ∑ p ∈ Finset.range M.poolSize, wtv M x p h * wtv M x p h := by
        refine Finset.sum_congr rfl fun p _ => ?_
        rw [← Finset.mul_sum]
        rfl

/-- Decoding of the Armadillo flat cube index `h*(V*P) + p*V + v`. -/
lemma flatIdx_decode (V P H v p h : ℕ) (hv : v < V) (hp : p < P) (hh : h < H) :
    h * (V * P) + p * V + v < V * P * H ∧
    (h * (V * P) + p * V + v) % V = v ∧
    (h * (V * P) + p * V + v) / V % P = p ∧
    (h * (V * P) + p * V + v) / (V * P) = h := by
  have hV : 0 < V := by omega
  have hVP : 0 < V * P := Nat.mul_pos hV (by omega)
  have hsub : p * V + v < V * P := by
    calc p * V + v < (p + 1) * V := by
          rw [add_mul, one_mul]; omega
      _ ≤ P * V := mul_le_mul_right' (by omega) V
      _ = V * P := mul_comm P V
  refine ⟨?_, ?_, ?_, ?_⟩
  · calc h * (V * P) + p * V + v
        = (V * P) * h + (p * V + v) := by ring
      _ < (V * P) * h + V * P := by omega
      _ = (V * P) * (h + 1) := by ring
      _ ≤ (V * P) * H := mul_le_mul_left' (by omega) (V * P)
      _ = V * P * H := rfl
  · rw [show h * (V * P) + p * V + v = V * (h * P + p) + v by ring,
      Nat.mul_add_mod, Nat.mod_eq_of_lt hv]
  · rw [show h * (V * P) + p * V + v = V * (h * P + p) + v by ring,
      Nat.mul_add_div hV, Nat.div_eq_of_lt hv, Nat.add_zero,
      show h * P + p = P * h + p by ring, Nat.mul_add_mod,
      Nat.mod_eq_of_lt hp]
  · rw [show h * (V * P) + p * V + v = (V * P) * h + (p * V + v) by ring,
      Nat.mul_add_div hVP, Nat.div_eq_of_lt hsub, Nat.add_zero]

/-- Behaviour of the `SampleVisible` retry loop: starting at attempt `k`
with `fuel` iterations left it exits no earlier than `k` and no later than
`k + fuel`, every attempt strictly before the exit index was rejected, and
an exit strictly inside the budget happens at an accepted attempt. -/
lemma svLoop_spec (M : Model) (input : ℕ → ℝ) (rnd : ℕ → ℕ → ℝ → ℝ → ℝ) :
    ∀ fuel k,
      k ≤ svLoop M input rnd fuel k ∧
      svLoop M input rnd fuel k ≤ k + fuel ∧
      (∀ j, k ≤ j → j < svLoop M input rnd fuel k → ¬ svAccept M input rnd j) ∧
      (svLoop M input rnd fuel k < k + fuel →
        svAccept M input rnd (svLoop M input rnd fuel k)) := by
  intro fuel
  induction fuel with
  | zero =>
    intro k
    refine ⟨le_rfl, by simp [svLoop], ?_, by simp [svLoop]⟩
    simp only [svLoop]
    omega
  | succ n ih =>
    intro k
    by_cases hacc : svAccept M input rnd k
    · rw [show svLoop M input rnd (n + 1) k = k from by rw [svLoop, if_pos hacc]]
      exact ⟨le_rfl, by omega, fun j hj1 hj2 => by omega, fun _ => hacc⟩
    · rw [show svLoop M input rnd (n + 1) k = svLoop M input rnd n (k + 1) from
        by rw [svLoop, if_neg hacc]]
      obtain ⟨h1, h2, h3, h4⟩ := ih (k + 1)
      refine ⟨by omega, by omega, ?_, fun hlt => h4 (by omega)⟩
      intro j hj1 hj2
      rcases Nat.eq_or_lt_of_le hj1 with heq | hlt
      · exact heq ▸ hacc
      · exact h3 j hlt hj2

/-- C4: for every visible input, `FreeEnergy` returns
`0.5·α·‖visible‖² − 0.5·H·P·log(2π/slabPenalty) −
Σ_h softplus(b[h] − ‖W[:,:,h]ᵀ·visible‖² / (2·slabPenalty))`, where `α` is
the stored visible penalty, `b` the stored spike bias, and `W` the stored
weight tensor. -/
theorem C4_freeEnergy_formula (M : Model) (input : ℕ → ℝ) :
    freeEnergy M input =
      0.5 * M.visiblePenalty * l2NormSq M.visibleSize input
      - 0.5 * (M.hiddenSize : ℝ) * (M.poolSize : ℝ) *
          Real.log ((2 * Real.pi) / M.slabPenalty)
      - ∑ h ∈ Finset.range M.hiddenSize,
          softplus (M.spikeBias h -
            l2NormSq M.poolSize (fun p => wtv M input p h) /
              (2 * M.slabPenalty)) := by
  unfold freeEnergy
  simp only [l2NormSq, norm2_sq]
  ring

/-- C5: for every visible input and hidden unit `h`, `SpikeMean` writes
entry `h` equal to the logistic sigmoid of
`visibleᵀ·W[:,:,h]·W[:,:,h]ᵀ·visible / (2·slabPenalty) + b[h]`. -/
theorem C5_spikeMean_formula (M : Model) (visible : ℕ → ℝ) (h : ℕ)
    (_hh : h < M.hiddenSize) :
    spikeMean M visible h =
      logistic (spikeQuadSpec M visible h / (2 * M.slabPenalty) +
        M.spikeBias h) := by
  unfold spikeMean spikeQuadSpec
  rw [quadForm_eq]
  congr 1
  ring

/-- Witness for C5 at the concrete one-unit model. -/
theorem C5_spikeMean_formula_witness :
    spikeMean Mone oneVec 0 =
      logistic (spikeQuadSpec Mone oneVec 0 / (2 * Mone.slabPenalty) +
        Mone.spikeBias 0) :=
  C5_spikeMean_formula Mone oneVec 0 (by decide)

/-- C6: for every visible vector, spike vector, and weight configuration,
`SlabMean` writes entry `(p, h)` equal to
`spike[h] / slabPenalty · (W[:,:,h]ᵀ·visible)[p]`; in particular, whenever
`spike[h] = 0`, column `h` of the output is exactly zero. -/
theorem C6_slabMean_formula (M : Model) (visible spike : ℕ → ℝ) (p h : ℕ) :
    slabMean M visible spike p h =
      spike h / M.slabPenalty * wtv M visible p h ∧
    (spike h = 0 → slabMean M visible spike p h = 0) := by
  constructor
  · unfold slabMean; ring
  · intro h0; unfold slabMean; rw [h0]; ring

/-- Witness for C6: a zero spike entry gives an exactly-zero slab mean. -/
theorem C6_slabMean_formula_witness : slabMean Mone oneVec zeroVec 0 0 = 0 :=
  (C6_slabMean_formula Mone oneVec zeroVec 0 0).2 rfl

/-- C7: `VisibleMean` computes `(1/α)·Σ_h W[:,:,h]·slab[:,h]·spike[h]`
from the concatenated hidden input (spike first, then slab, column-major),
and is linear in the slab part holding the spike part fixed: scaling every
slab entry by `c` scales every entry of the output by `c`. -/
theorem C7_visibleMean_linear (M : Model) (hidden : ℕ → ℝ) (c : ℝ) (v : ℕ) :
    visibleMean M hidden v = (1 / M.visiblePenalty) *
      ∑ h ∈ Finset.range M.hiddenSize,
        (∑ p ∈ Finset.range M.poolSize,
          M.weight v p h * hidden (M.hiddenSize + h * M.poolSize + p)) *
        hidden h ∧
    visibleMean M (scaleSlab M c hidden) v = c * visibleMean M hidden v := by
  refine ⟨rfl, ?_⟩
  unfold visibleMean scaleSlab
  have key : ∑ h ∈ Finset.range M.hiddenSize,
      (∑ p ∈ Finset.range M.poolSize, M.weight v p h *
        (if M.hiddenSize + h * M.poolSize + p < M.hiddenSize
         then hidden (M.hiddenSize + h * M.poolSize + p)
         else c * hidden (M.hiddenSize + h * M.poolSize + p))) *
      (if h < M.hiddenSize then hidden h else c * hidden h) =
      c * ∑ h ∈ Finset.range M.hiddenSize,
        (∑ p ∈ Finset.range M.poolSize,
          M.weight v p h * hidden (M.hiddenSize + h * M.poolSize + p)) *
        hidden h := by
    rw [Finset.mul_sum]
    refine Finset.sum_congr rfl fun h hh => ?_
    rw [if_pos (Finset.mem_range.mp hh)]
    have inner : (∑ p ∈ Finset.range M.poolSize, M.weight v p h *
        (if M.hiddenSize + h * M.poolSize + p < M.hiddenSize
         then hidden (M.hiddenSize + h * M.poolSize + p)
         else c * hidden (M.hiddenSize + h * M.poolSize + p))) =
        c * ∑ p ∈ Finset.range M.poolSize,
          M.weight v p h * hidden (M.hiddenSize + h * M.poolSize + p) := by
      rw [Finset.mul_sum]
      refine Finset.sum_congr rfl fun p _ => ?_
      rw [if_neg (by omega)]
      ring
    rw [inner]
    ring
  rw [key]
  ring

/-- C9: every entry of the vector produced by `SpikeMean` lies strictly
within the open interval (0,1). -/
theorem C9_spikeMean_range (M : Model) (visible : ℕ → ℝ) (h : ℕ) :
    0 < spikeMean M visible h ∧ spikeMean M visible h < 1 := by
  unfold spikeMean
  exact ⟨logistic_pos _, logistic_lt_one _⟩

/-- C3: `Phase` writes weight-gradient slice `h` equal to the outer
product of the visible vector and slab-mean column `h` scaled by
`spikeMean[h]` — the spike mean, not the sampled spike, even though the
slab mean itself is conditioned on the sampled spike — writes the
spike-bias gradient equal to the spike-mean vector, and writes the
visible-penalty gradient equal to `−0.5·visibleᵀ·visible`, all into the
flat gradient layout. -/
theorem C3_phase_gradients (M : Model) (input spikeSamples gradient : ℕ → ℝ) :
    (∀ v p h, v < M.visibleSize → p < M.poolSize → h < M.hiddenSize →
      phase M input spikeSamples gradient
        (h * (M.visibleSize * M.poolSize) + p * M.visibleSize + v) =
      input v * slabMean M input spikeSamples p h * spikeMean M input h) ∧
    (∀ h, h < M.hiddenSize →
      phase M input spikeSamples gradient
        (M.visibleSize * M.poolSize * M.hiddenSize + h) =
      spikeMean M input h) ∧
    phase M input spikeSamples gradient
      (M.visibleSize * M.poolSize * M.hiddenSize + M.hiddenSize) =
    -0.5 * ∑ v ∈ Finset.range M.visibleSize, input v * input v := by
  refine ⟨?_, ?_, ?_⟩
  · intro v p h hv hp hh
    obtain ⟨hlt, hmod, hdivmod, hdiv⟩ :=
      flatIdx_decode M.visibleSize M.poolSize M.hiddenSize v p h hv hp hh
    unfold phase
    rw [if_pos hlt, hmod, hdivmod, hdiv]
    rfl
  · intro h hh
    unfold phase
    rw [if_neg (by omega), if_pos (by omega), Nat.add_sub_cancel_left]
  · unfold phase
    rw [if_neg (by omega), if_neg (by omega), if_pos rfl]
    rfl

/-- Witness for C3 at the one-unit model, all indices 0. -/
theorem C3_phase_gradients_witness :
    phase Mone oneVec zeroVec zeroVec
      (0 * (Mone.visibleSize * Mone.poolSize) + 0 * Mone.visibleSize + 0) =
      oneVec 0 * slabMean Mone oneVec zeroVec 0 0 * spikeMean Mone oneVec 0 :=
  (C3_phase_gradients Mone oneVec zeroVec zeroVec).1 0 0 0
    (by decide) (by decide) (by decide)

/-- C10: `Phase` leaves every gradient-buffer position past the first
`V·P·H + H + 1` untouched, while `Reset` sizes the gradient buffers at
`V·P·H + V + H = (V·P·H + H + 1) + (V − 1)` elements, so the trailing
`V − 1` positions keep their prior values whenever `V > 1`. -/
theorem C10_phase_frame (M : Model) (input spikeSamples gradient : ℕ → ℝ)
    (init : (ℕ → ℝ) → ℕ → ℝ) (hV : 0 < M.visibleSize) :
    (∀ j, M.visibleSize * M.poolSize * M.hiddenSize + M.hiddenSize + 1 ≤ j →
      phase M input spikeSamples gradient j = gradient j) ∧
    (M.Reset init).positiveGradientSize =
      (M.visibleSize * M.poolSize * M.hiddenSize + M.hiddenSize + 1) +
        (M.visibleSize - 1) := by
  constructor
  · intro j hj
    unfold phase
    rw [if_neg (by omega), if_neg (by omega), if_neg (by omega)]
  · have hres : (M.Reset init).positiveGradientSize = resetShape M := rfl
    rw [hres]
    unfold resetShape
    have hcomm : M.visibleSize * M.hiddenSize * M.poolSize =
        M.visibleSize * M.poolSize * M.hiddenSize := by ring
    omega

/-- Witness for C10 at the `V = 2` model: position 5 lies past the views
and is left as it was, and the buffer size exceeds the covered prefix by
`V − 1 = 1`. -/
theorem C10_phase_frame_witness :
    phase Mex oneVec zeroVec oneVec 5 = oneVec 5 ∧
    (Mex.Reset (fun b => b)).positiveGradientSize =
      (Mex.visibleSize * Mex.poolSize * Mex.hiddenSize + Mex.hiddenSize + 1) +
        (Mex.visibleSize - 1) :=
  ⟨(C10_phase_frame Mex oneVec zeroVec oneVec (fun b => b) (by decide)).1 5
      (by decide),
   (C10_phase_frame Mex oneVec zeroVec oneVec (fun b => b) (by decide)).2⟩

/-- C1 counterexample: with `V = 2`, `H = 1`, `P = 1` the flat buffers get
`V·H·P + V + H = 5` elements, not `V·P·H + H + 1 = 4` as the claim
states. -/
theorem C1_counterexample :
    (Mex.Reset (fun b => b)).parameterSize ≠
      Mex.visibleSize * Mex.poolSize * Mex.hiddenSize + Mex.hiddenSize + 1 := by
  decide

/-- C1 (amended): for every valid configuration (`V`, `H`, `P` all
nonzero), `Reset` sizes the flat parameter buffer and all three gradient
buffers at exactly `V·P·H + V + H` elements, zeroes the parameter buffer
before invoking the configured initializer on it, and the weight-tensor
view (offset 0), the spike-bias view (immediately after the weight
tensor), and the visible-penalty view (immediately after the spike bias)
are pairwise disjoint and together cover exactly the first
`V·P·H + H + 1` buffer positions — the whole buffer only when `V = 1`. -/
theorem C1_reset_layout_amended (M : Model) (init : (ℕ → ℝ) → ℕ → ℝ)
    (hV : 0 < M.visibleSize) (_hH : 0 < M.hiddenSize)
    (_hP : 0 < M.poolSize) :
    ((M.Reset init).parameterSize =
        M.visibleSize * M.poolSize * M.hiddenSize + M.visibleSize +
          M.hiddenSize ∧
      (M.Reset init).positiveGradientSize = (M.Reset init).parameterSize ∧
      (M.Reset init).negativeGradientSize = (M.Reset init).parameterSize ∧
      (M.Reset init).tempNegativeGradientSize =
        (M.Reset init).parameterSize) ∧
    ((∀ j, (M.Reset init).preInitParameter j = 0) ∧
      (M.Reset init).parameter = init (M.Reset init).preInitParameter) ∧
    (Disjoint (weightRegion M) (spikeBiasRegion M) ∧
      Disjoint (weightRegion M) (visiblePenaltyRegion M) ∧
      Disjoint (spikeBiasRegion M) (visiblePenaltyRegion M)) ∧
    weightRegion M ∪ spikeBiasRegion M ∪ visiblePenaltyRegion M =
      Finset.range
        (M.visibleSize * M.poolSize * M.hiddenSize + M.hiddenSize + 1) ∧
    M.visibleSize * M.poolSize * M.hiddenSize + M.hiddenSize + 1 ≤
      (M.Reset init).parameterSize ∧
    (M.Reset init).reset = true := by
  have hres : (M.Reset init).parameterSize = resetShape M := rfl
  have hcomm : M.visibleSize * M.hiddenSize * M.poolSize =
      M.visibleSize * M.poolSize * M.hiddenSize := by ring
  refine ⟨⟨?_, rfl, rfl, rfl⟩, ⟨fun j => rfl, rfl⟩, ⟨?_, ?_, ?_⟩, ?_, ?_, rfl⟩
  · rw [hres]; unfold resetShape; omega
  · rw [Finset.disjoint_left]
    intro a ha hb
    simp only [weightRegion, spikeBiasRegion, Finset.mem_Ico] at ha hb
    omega
  · rw [Finset.disjoint_left]
    intro a ha hb
    simp only [weightRegion, visiblePenaltyRegion, Finset.mem_Ico] at ha hb
    omega
  · rw [Finset.disjoint_left]
    intro a ha hb
    simp only [spikeBiasRegion, visiblePenaltyRegion, Finset.mem_Ico] at ha hb
    omega
  · ext j
    simp only [weightRegion, spikeBiasRegion, visiblePenaltyRegion,
      Finset.mem_union, Finset.mem_Ico, Finset.mem_range]
    omega
  · rw [hres]; unfold resetShape; omega

/-- Witness for C1 (amended) at the `V = 2` model. -/
theorem C1_reset_layout_amended_witness :
    (Mex.Reset (fun b => b)).parameterSize =
      Mex.visibleSize * Mex.poolSize * Mex.hiddenSize + Mex.visibleSize +
        Mex.hiddenSize ∧
    (Mex.Reset (fun b => b)).preInitParameter 0 = 0 ∧
    weightRegion Mex ∪ spikeBiasRegion Mex ∪ visiblePenaltyRegion Mex =
      Finset.range
        (Mex.visibleSize * Mex.poolSize * Mex.hiddenSize + Mex.hiddenSize +
          1) :=
  ⟨(C1_reset_layout_amended Mex (fun b => b) (by decide) (by decide)
      (by decide)).1.1,
   (C1_reset_layout_amended Mex (fun b => b) (by decide) (by decide)
      (by decide)).2.1.1 0,
   (C1_reset_layout_amended Mex (fun b => b) (by decide) (by decide)
      (by decide)).2.2.2.1⟩

/-- C8: `HiddenMean` outputs the concatenation of the spike mean with a
slab mean conditioned on the spike vector Bernoulli-sampled from that
spike mean, not on the spike mean itself: there are inputs where the
output differs from what conditioning on the spike mean would give, so
the slab part is a random quantity, not the exact conditional
expectation. -/
theorem C8_hiddenMean_concat :
    (∀ (M : Model) (visible spikeSamples : ℕ → ℝ) (j : ℕ),
      j < M.hiddenSize →
      hiddenMean M visible spikeSamples j = spikeMean M visible j) ∧
    (∀ (M : Model) (visible spikeSamples : ℕ → ℝ) (p h : ℕ),
      p < M.poolSize → h < M.hiddenSize →
      hiddenMean M visible spikeSamples
        (M.hiddenSize + h * M.poolSize + p) =
      slabMean M visible spikeSamples p h) ∧
    (∃ (M : Model) (visible spikeSamples : ℕ → ℝ) (j : ℕ),
      hiddenMean M visible spikeSamples j ≠
        hiddenMean M visible (spikeMean M visible) j) := by
  refine ⟨?_, ?_, ?_⟩
  · intro M visible s j hj
    unfold hiddenMean
    rw [if_pos hj]
  · intro M visible s p h hp hh
    have hP : 0 < M.poolSize := by omega
    unfold hiddenMean
    rw [if_neg (by omega)]
    have e0 : M.hiddenSize + h * M.poolSize + p - M.hiddenSize =
        M.poolSize * h + p := by
      rw [mul_comm M.poolSize h]; omega
    rw [e0, Nat.mul_add_mod, Nat.mod_eq_of_lt hp, Nat.mul_add_div hP,
      Nat.div_eq_of_lt hp, Nat.add_zero]
  · refine ⟨Mone, oneVec, zeroVec, 1, ?_⟩
    have hL : hiddenMean Mone oneVec zeroVec 1 = 0 := by
      unfold hiddenMean
      rw [if_neg (by decide)]
      unfold slabMean
      simp [zeroVec]
    have hR : hiddenMean Mone oneVec (spikeMean Mone oneVec) 1 =
        spikeMean Mone oneVec 0 := by
      unfold hiddenMean
      rw [if_neg (by decide)]
      have e1 : (1 - Mone.hiddenSize) % Mone.poolSize = 0 := by decide
      have e2 : (1 - Mone.hiddenSize) / Mone.poolSize = 0 := by decide
      rw [e1, e2]
      unfold slabMean wtv
      simp [Mone, oneVec]
    intro heq
    rw [hL, hR] at heq
    have hpos : 0 < spikeMean Mone oneVec 0 := by
      unfold spikeMean; exact logistic_pos _
    exact absurd heq.symm (ne_of_gt hpos)

/-- Witness for C8 at the one-unit model: spike part at position 0 and
slab part at position `H + 0·P + 0`. -/
theorem C8_hiddenMean_concat_witness :
    hiddenMean Mone oneVec zeroVec 0 = spikeMean Mone oneVec 0 ∧
    hiddenMean Mone oneVec zeroVec
      (Mone.hiddenSize + 0 * Mone.poolSize + 0) =
      slabMean Mone oneVec zeroVec 0 0 :=
  ⟨C8_hiddenMean_concat.1 Mone oneVec zeroVec 0 (by decide),
   C8_hiddenMean_concat.2.1 Mone oneVec zeroVec 0 0 (by decide) (by decide)⟩

/-- C2: for every hidden input, `SampleVisible` makes between 1 and
`numMaxTrials = 10` attempts, each drawing every visible coordinate from
`Normal(visibleMean[i], 1/α)` with the visible mean computed once before
the loop; it stops at the first attempt whose draw has L2 norm strictly
below `radius`; when all 10 attempts fail it fires the warning exactly
once and still returns normally, leaving the last (out-of-radius) draw in
the output buffer. -/
theorem C2_sampleVisible_retry (M : Model) (input : ℕ → ℝ)
    (rnd : ℕ → ℕ → ℝ → ℝ → ℝ) :
    (1 ≤ svAttempts M input rnd ∧ svAttempts M input rnd ≤ numMaxTrials) ∧
    (svWarnCount M input rnd = 1 ↔
      ∀ k, k < numMaxTrials → ¬ svAccept M input rnd k) ∧
    (∀ i, svOutput M input rnd i =
      rnd (svAttempts M input rnd - 1) i (visibleMean M input i)
        (1 / M.visiblePenalty)) ∧
    (∀ k, k < numMaxTrials → svAccept M input rnd k →
      (∀ j, j < k → ¬ svAccept M input rnd j) →
      svAttempts M input rnd = k + 1) ∧
    ((∀ k, k < numMaxTrials → ¬ svAccept M input rnd k) →
      svAttempts M input rnd = numMaxTrials) := by
  obtain ⟨hge, hle, hrej, hacc⟩ := svLoop_spec M input rnd numMaxTrials 0
  have hE : svExitK M input rnd = svLoop M input rnd numMaxTrials 0 := rfl
  rw [← hE] at hge hle hrej hacc
  have hallE : (∀ k, k < numMaxTrials → ¬ svAccept M input rnd k) ↔
      svExitK M input rnd = numMaxTrials := by
    constructor
    · intro hall
      by_contra hne
      have hlt : svExitK M input rnd < numMaxTrials := by omega
      exact hall _ hlt (hacc (by omega))
    · intro h10 k hk
      exact hrej k (Nat.zero_le k) (by omega)
  refine ⟨⟨?_, ?_⟩, ?_, fun i => rfl, ?_, ?_⟩
  · unfold svAttempts
    have : 1 ≤ numMaxTrials := by decide
    omega
  · unfold svAttempts
    omega
  · unfold svWarnCount
    by_cases hcase : svExitK M input rnd = numMaxTrials
    · rw [if_pos hcase]
      simp only [hallE, hcase]
    · rw [if_neg hcase]
      simp only [hallE]
      omega
  · intro k hk hk_acc hmin
    have hnot1 : ¬ (k < svExitK M input rnd) := fun hlt =>
      (hrej k (Nat.zero_le k) hlt) hk_acc
    have hnot2 : ¬ (svExitK M input rnd < k) := fun hlt =>
      (hmin _ hlt) (hacc (by omega))
    unfold svAttempts
    omega
  · intro hall
    have h10 : svExitK M input rnd = numMaxTrials := hallE.mp hall
    unfold svAttempts
    omega

/-- Witness for C2 at the one-unit model with the all-zero random
source. -/
theorem C2_sampleVisible_retry_witness :
    (1 ≤ svAttempts Mone oneVec rndZero ∧
      svAttempts Mone oneVec rndZero ≤ numMaxTrials) ∧
    svOutput Mone oneVec rndZero 0 =
      rndZero (svAttempts Mone oneVec rndZero - 1) 0
        (visibleMean Mone oneVec 0) (1 / Mone.visiblePenalty) :=
  ⟨(C2_sampleVisible_retry Mone oneVec rndZero).1,
   (C2_sampleVisible_retry Mone oneVec rndZero).2.2.1 0⟩
